import Mathlib

/-
  Verification development for the map viewer application (map.js).
  The JavaScript source is shallowly embedded: each relevant function of
  the source file is translated into an executable Lean definition over
  explicit state, and the specification claims are settled as theorems
  about those definitions. Definitions whose doc comment begins with
  Modelled from the spec capture behaviour of collaborators that is not
  part of the source file; everything else is translated directly from
  the source.
-/

namespace MapViewer

/-- Whitespace test used by the embedded string primitives. -/
def isWS (c : Char) : Bool :=
  c == ' ' || c == '\t' || c == '\n' || c == '\r'

/-- Emptiness test on strings; embeds JavaScript string falsiness. -/
def strEmpty (s : String) : Bool :=
  s.data.isEmpty

/-- Numeric value of a run of decimal digits, most significant first. -/
def digitsToNat (l : List Char) : Nat :=
  l.foldl (fun a c => a * 10 + (c.toNat - '0'.toNat)) 0

/-- Power of ten used for decimal fractions. -/
def pow10 (n : Nat) : Nat :=
  10 ^ n

/-- Embeds the JavaScript parseFloat as applied by the source to
coordinate strings: optional leading whitespace, an optional sign, then a
decimal digit run with an optional fractional part; trailing text is
ignored; a string with no digits at that position yields none, which
models the NaN result checked by the source. -/
def parseFloatM (s : String) : Option Rat :=
  let cs := s.data.dropWhile isWS
  let signed : Rat × List Char :=
    match cs with
    | '-' :: r => (-1, r)
    | '+' :: r => (1, r)
    | _ => (1, cs)
  let ip := signed.2.takeWhile Char.isDigit
  let rest := signed.2.dropWhile Char.isDigit
  let fp :=
    match rest with
    | '.' :: r => r.takeWhile Char.isDigit
    | _ => []
  if ip.isEmpty && fp.isEmpty then none
  else some (signed.1 * ((digitsToNat ip : Rat) + (digitsToNat fp : Rat) / (pow10 fp.length : Rat)))

/-- Embeds String.prototype.toLowerCase at the character level. -/
def lower (s : String) : String :=
  String.mk (s.data.map Char.toLower)

/-- Embeds String.prototype.trim. -/
def trimStr (s : String) : String :=
  String.mk (((s.data.dropWhile isWS).reverse.dropWhile isWS).reverse)

/-- Prefix test on character lists, used by the substring test below. -/
def startsWithL : List Char → List Char → Bool
  | [], _ => true
  | _ :: _, [] => false
  | a :: as, b :: bs => (a == b) && startsWithL as bs

/-- Substring occurrence test on character lists. -/
def containsSubL (sub : List Char) : List Char → Bool
  | [] => sub.isEmpty
  | c :: rest => startsWithL sub (c :: rest) || containsSubL sub rest

/-- Embeds String.prototype.includes: sub occurs inside s. -/
def containsSub (s sub : String) : Bool :=
  containsSubL sub.data s.data

/-- A location entry of the loaded document. Optional fields of the JSON
shape (info, img, relatedItems) are modelled with empty defaults, which
matches how the source treats a missing value as falsy. -/
structure Location where
  name : String
  lat : String
  lng : String
  info : String := ""
  img : String := ""
  relatedItems : List String := []
deriving DecidableEq

/-- A category of the loaded document. -/
structure Category where
  color : String
  locations : List Location
deriving DecidableEq

/-- The categories document; list order models the for-in key order. -/
abbrev CategoriesDoc := List (String × Category)

abbrev Url := String

/-- Settled outcome of one underlying image load. -/
inductive LoadOutcome
  | success (url : Url)
  | failure
deriving DecidableEq

/-- The imageLoadCache map, newest entry first. -/
abbrev ImageCache := List (Url × LoadOutcome)

def cacheGet : ImageCache → Url → Option LoadOutcome
  | [], _ => none
  | (k, v) :: rest, u => if k = u then some v else cacheGet rest u

def cacheHas (c : ImageCache) (u : Url) : Bool :=
  match cacheGet c u with
  | some _ => true
  | none => false

/-- Settled result of the underlying browser fetch for a url, given by
the network oracle net. -/
def netOutcome (net : Url → Bool) (u : Url) : LoadOutcome :=
  if net u then LoadOutcome.success u else LoadOutcome.failure

/-- Embeds loadImage: return the memoized outcome when present, otherwise
initiate one underlying load (third component true) and memoize it. -/
def loadImage (net : Url → Bool) (c : ImageCache) (u : Url) : LoadOutcome × ImageCache × Bool :=
  match cacheGet c u with
  | some o => (o, c, false)
  | none => (netOutcome net u, (u, netOutcome net u) :: c, true)

/-- Runs a sequence of loadImage calls, logging each returned outcome and
whether the call initiated an underlying load. -/
def runLoads (net : Url → Bool) : ImageCache → List Url → List (Url × LoadOutcome × Bool) × ImageCache
  | c, [] => ([], c)
  | c, u :: rest =>
    let r := loadImage net c u
    let t := runLoads net r.2.1 rest
    ((u, r.1, r.2.2) :: t.1, t.2)

/-- Number of log entries that initiated an underlying load for url u. -/
def initiations (log : List (Url × LoadOutcome × Bool)) (u : Url) : Nat :=
  log.countP (fun e => e.1 == u && e.2.2)

/-- The single outcome every loadImage call for u can return, given the
starting cache: the memo when present, otherwise the network result. -/
def expectedOutcome (net : Url → Bool) (c : ImageCache) (u : Url) : LoadOutcome :=
  match cacheGet c u with
  | some o => o
  | none => netOutcome net u

/-- Embeds awaiting the promise returned by loadImage inside the warm
loop: a failed load surfaces as a thrown error, a successful one yields
the url; the memoization side effect happens in both cases. -/
def loadImageAwait (net : Url → Bool) (c : ImageCache) (u : Url) : ImageCache × Except String Url :=
  let r := loadImage net c u
  match r.1 with
  | LoadOutcome.success v => (r.2.1, Except.ok v)
  | LoadOutcome.failure => (r.2.1, Except.error ("Failed to load image: " ++ u))

/-- Embeds the sequential loop of warmCache: each load is awaited and an
individual failure is swallowed by the empty catch block, so the loop
continues either way and never rethrows. -/
def warmRun (net : Url → Bool) : List Url → ImageCache → Except String ImageCache
  | [], c => Except.ok c
  | u :: rest, c =>
    match loadImageAwait net c u with
    | (c2, Except.ok _) => warmRun net rest c2
    | (c2, Except.error _) => warmRun net rest c2

/-- Embeds warmCache: keep at most limit candidates, drop the ones already
in the cache, and run the quiet sequential load loop over the remainder.
The first component is the toWarm list the source computes. -/
def warmCache (net : Url → Bool) (c : ImageCache) (urls : List Url) (limit : Nat) : List Url × Except String ImageCache :=
  let toWarm := (urls.take limit).filter (fun u => !(cacheHas c u))
  (toWarm, warmRun net toWarm c)

/-- Highlight state: the currentHighlightedMarker reference and the set of
marker elements presently carrying the highlighted css class, modelled as
a list of handles. -/
structure HighlightState where
  current : Option Nat
  emphasized : List Nat
deriving DecidableEq

/-- State at session start: no marker highlighted. -/
def initHighlight : HighlightState :=
  { current := none, emphasized := [] }

/-- Embeds highlightMarker: when a different marker was highlighted its
class is removed first, the new marker becomes current, and its class is
removed and re-added (restarting the animation); the class set is kept
duplicate-free by the removal preceding the addition. -/
def highlightMarker (s : HighlightState) (m : Nat) : HighlightState :=
  let afterPrev :=
    match s.current with
    | some p => if p ≠ m then s.emphasized.filter (fun h => h != p) else s.emphasized
    | none => s.emphasized
  { current := some m
    emphasized := m :: afterPrev.filter (fun h => h != m) }

/-- The state in which exactly the marker m is highlighted. -/
def stateFor (m : Nat) : HighlightState :=
  { current := some m, emphasized := [m] }

/-- Errors raised by the map surface. -/
inductive MapError
  | invalidLatLng
deriving DecidableEq

/-- A placed marker handle of the map surface. -/
structure Marker where
  title : String
  lat : Rat
  lng : Rat
deriving DecidableEq

/-- Modelled from the spec: the placeMarker capability of the map surface,
with the behaviour of the map library the source actually calls, whose
point constructor raises an invalid-coordinates error when either
coordinate is NaN (here: failed to parse) instead of placing a point. -/
def placeMarker (lat lng : Option Rat) (title : String) : Except MapError Marker :=
  match lat, lng with
  | some la, some ln => Except.ok { title := title, lat := la, lng := ln }
  | _, _ => Except.error MapError.invalidLatLng

/-- Embeds the marker construction of loadCategories for one location:
the marker is built from parseFloat of the two coordinate strings. -/
def placeLocation (loc : Location) : Except MapError Marker :=
  placeMarker (parseFloatM loc.lat) (parseFloatM loc.lng) loc.name

/-- Embeds the per-category forEach of loadCategories: markers are added
to the group one by one; an error thrown by the marker constructor aborts
the loop, keeping the markers already added. -/
def placeList (g : List Marker) : List Location → List Marker × Option MapError
  | [] => (g, none)
  | loc :: rest =>
    match placeLocation loc with
    | Except.ok m => placeList (g ++ [m]) rest
    | Except.error e => (g, some e)

/-- Embeds the outer category loop of loadCategories: an error escaping
one category aborts the remaining categories as well, since the whole
loop runs inside one promise callback. -/
def placeDoc (g : List Marker) : CategoriesDoc → List Marker × Option MapError
  | [] => (g, none)
  | c :: rest =>
    match placeList g c.2.locations with
    | (g2, none) => placeDoc g2 rest
    | (g2, some e) => (g2, some e)

/-- The markers layer group of the map surface. -/
structure MapState where
  markers : List Marker
deriving DecidableEq

/-- Embeds markersGroup.clearLayers. -/
def clearLayers (s : MapState) : MapState :=
  { markers := [] }

/-- Embeds loadData for one completed fetch: the marker group is cleared
first, then the markers of the document are placed; an error escaping the
placement loop lands in the trailing catch, keeping the markers placed so
far. -/
def loadData (doc : CategoriesDoc) (s : MapState) : MapState :=
  let cleared := clearLayers s
  { markers := (placeDoc cleared.markers doc).1 }

/-- The markers a fully valid document implies: one per location, built
from its parsed coordinates, in document order. -/
def markersOf : CategoriesDoc → List Marker
  | [] => []
  | c :: rest => c.2.locations.filterMap (fun l => (placeLocation l).toOption) ++ markersOf rest

/-- Every location of the document has parseable coordinates. -/
def allCoordsValid (doc : CategoriesDoc) : Prop :=
  ∀ c ∈ doc, ∀ loc ∈ c.2.locations, (parseFloatM loc.lat).isSome = true ∧ (parseFloatM loc.lng).isSome = true

/-- One search result row: the location, its category key, and the
related items that matched the query. -/
structure SearchMatch where
  location : Location
  category : String
  matchedRelatedItems : List String
deriving DecidableEq

/-- Embeds the matchingRelatedItems computation of the search handler:
the related items whose lowercased text contains the query. -/
def matchingRelated (query : String) (loc : Location) : List String :=
  loc.relatedItems.filter (fun it => containsSub (lower it) query)

/-- Embeds the match condition of the search handler: the name is truthy
and its lowercased text contains the query, or some related item does. -/
def locationMatchesQ (query : String) (loc : Location) : Bool :=
  (!(strEmpty loc.name)) && containsSub (lower loc.name) query
    || !((matchingRelated query loc).isEmpty)

/-- Embeds one push step of the match-collection forEach. -/
def searchFoldLoc (query catName : String) (acc : List SearchMatch) (loc : Location) : List SearchMatch :=
  if locationMatchesQ query loc then
    acc ++ [{ location := loc, category := catName, matchedRelatedItems := matchingRelated query loc }]
  else acc

/-- Embeds the nested match-collection loops of the search handler. -/
def searchMatches (query : String) (doc : CategoriesDoc) : List SearchMatch :=
  doc.foldl (fun acc c => c.2.locations.foldl (searchFoldLoc query c.1) acc) []

/-- Embeds the input handler of the search box: the query is trimmed and
lowercased; an empty result is the show-everything sentinel (none),
otherwise the collected matches are returned. -/
def searchHandler (raw : String) (doc : CategoriesDoc) : Option (List SearchMatch) :=
  let query := lower (trimStr raw)
  if strEmpty query then none
  else some (searchMatches query doc)

/-- Embeds the marker visibility the handler leaves behind: all locations
for the sentinel, exactly the matched locations otherwise (the handler
removes every marker and re-adds the matched ones). -/
def allLocations (doc : CategoriesDoc) : List Location :=
  doc.foldl (fun acc c => acc ++ c.2.locations) []

/-- The set of locations visible after the search handler ran. -/
def visibleLocations (raw : String) (doc : CategoriesDoc) : List Location :=
  match searchHandler raw doc with
  | none => allLocations doc
  | some ms => ms.map (fun m => m.location)

/-- Reformulation helper: what the collection loops push for one location. -/
def codeMatchOf (query catName : String) (loc : Location) : Option SearchMatch :=
  if locationMatchesQ query loc then
    some { location := loc, category := catName, matchedRelatedItems := matchingRelated query loc }
  else none

/-- Reformulation helper: the collected matches, category by category. -/
def codeMatchesList (query : String) : CategoriesDoc → List SearchMatch
  | [] => []
  | c :: rest => c.2.locations.filterMap (codeMatchOf query c.1) ++ codeMatchesList query rest

/-- Every location of the document in document order, spec reading. -/
def allLocationsSpec : CategoriesDoc → List Location
  | [] => []
  | c :: rest => c.2.locations ++ allLocationsSpec rest

/-- Every category-location pair of the document in document order. -/
def entriesSpec : CategoriesDoc → List (String × Location)
  | [] => []
  | c :: rest => c.2.locations.map (fun l => (c.1, l)) ++ entriesSpec rest

/-- Modelled from the spec: a location matches a query when its
lowercased name or some lowercased related item contains the lowercased
query. -/
def specMatchPred (q : String) (loc : Location) : Bool :=
  containsSub (lower loc.name) (lower q)
    || loc.relatedItems.any (fun it => containsSub (lower it) (lower q))

/-- The query is empty or consists of whitespace only. -/
def whitespaceOnly (raw : String) : Bool :=
  strEmpty (trimStr raw)

/-- Modelled from the spec (amended claim): the result row for one
category-location pair, when it matches the trimmed query; the related
items that matched are reported alongside. -/
def specMatchOf (raw : String) (e : String × Location) : Option SearchMatch :=
  if specMatchPred (trimStr raw) e.2 then
    some { location := e.2, category := e.1,
           matchedRelatedItems := e.2.relatedItems.filter (fun it => containsSub (lower it) (lower (trimStr raw))) }
  else none

/-- Modelled from the spec (amended claim): the match sequence in document
order for the trimmed query. -/
def matchesSpecTrimmed (raw : String) (doc : CategoriesDoc) : List SearchMatch :=
  (entriesSpec doc).filterMap (specMatchOf raw)

/-- Modelled from the spec (amended claim): every location is visible for
an empty or whitespace-only query; otherwise exactly the locations
matching the trimmed query, in document order. -/
def searchSpecTrimmed (raw : String) (doc : CategoriesDoc) : List Location :=
  if whitespaceOnly raw then allLocationsSpec doc
  else (allLocationsSpec doc).filter (specMatchPred (trimStr raw))

/-- Modelled from the claim as literally stated: apart from the
whitespace-only sentinel, the raw untrimmed query is what the name or a
related item must contain. -/
def searchClaimLiteral (raw : String) (doc : CategoriesDoc) : List Location :=
  if whitespaceOnly raw then allLocationsSpec doc
  else (allLocationsSpec doc).filter (specMatchPred raw)

/-- Zoom bounds of the map surface, as returned by getMinZoom and
getMaxZoom; optional to model the nullish fallbacks of the source. -/
structure MapConfig where
  minZoomOpt : Option Rat
  maxZoomOpt : Option Rat
deriving DecidableEq

/-- The bounds the source configures on the map: minZoom -15, maxZoom 10. -/
def mapConfigDefault : MapConfig :=
  { minZoomOpt := some (-15), maxZoomOpt := some 10 }

/-- Options object of focusLocation. -/
structure FocusOptions where
  zoom : Option Rat := none
deriving DecidableEq

/-- The camera action focusLocation performs when it does not bail out. -/
structure FocusAction where
  center : Rat × Rat
  zoom : Rat
deriving DecidableEq

/-- Embeds focusLocation up to the setView call: none models the early
returns (absent location, unparseable coordinate); otherwise the view is
set at the parsed point with the requested zoom clamped into the bounds. -/
def focusLocation (cfg : MapConfig) (location : Option Location) (options : FocusOptions) : Option FocusAction :=
  match location with
  | none => none
  | some loc =>
    match parseFloatM loc.lat, parseFloatM loc.lng with
    | some la, some ln =>
      let defaultZoom : Rat := 24 / 10
      let requestedZoom := options.zoom.getD defaultZoom
      let maxZoom := cfg.maxZoomOpt.getD 3
      let minZoom := cfg.minZoomOpt.getD (-10)
      some { center := (la, ln), zoom := min maxZoom (max requestedZoom minZoom) }
    | _, _ => none

/-- One related-item entry row of the create-marker popup. -/
structure RelatedRow where
  name : String
  desc : String
deriving DecidableEq

/-- The free-text fields of an open draft marker popup. -/
structure DraftFields where
  name : String
  imgUrl : String
  info : String
  rows : List RelatedRow
deriving DecidableEq

/-- Placement point of a draft marker in integral micro-degrees; the
source captures the click point and renders each coordinate with
toFixed(6), the rendering of a six-fractional-digit decimal. -/
structure LatLngU where
  latU : Int
  lngU : Int
deriving DecidableEq

/-- One decimal digit character. -/
def digitChar (n : Nat) : Char :=
  match n % 10 with
  | 0 => '0'
  | 1 => '1'
  | 2 => '2'
  | 3 => '3'
  | 4 => '4'
  | 5 => '5'
  | 6 => '6'
  | 7 => '7'
  | 8 => '8'
  | _ => '9'

/-- The six fractional digits of a micro-degree remainder. -/
def fracDigits6 (fp : Nat) : List Char :=
  [digitChar (fp / 100000), digitChar (fp / 10000), digitChar (fp / 1000),
   digitChar (fp / 100), digitChar (fp / 10), digitChar fp]

/-- Embeds toFixed(6) on a micro-degree coordinate: sign, integer part,
a dot, and exactly six fractional digits. -/
def toFixed6 (v : Int) : String :=
  String.mk ((if v < 0 then ['-'] else [])
    ++ (Nat.repr (v.natAbs / 1000000)).data
    ++ '.' :: fracDigits6 (v.natAbs % 1000000))

/-- The record the copy-marker handler serializes to the export sink. -/
structure MarkerRecord where
  id : Nat
  lat : String
  lng : String
  name : String
  img : String
  info : String
  relatedItems : List String
deriving DecidableEq

/-- Embeds the related-item collection of the copy handler: rows whose
trimmed name is truthy contribute that trimmed name, in row order; the
description inputs are never read into the record. -/
def collectRelatedItems (rows : List RelatedRow) : List String :=
  rows.foldl
    (fun acc row =>
      let itemName := trimStr row.name
      if strEmpty itemName then acc else acc ++ [itemName])
    []

/-- Embeds the record construction of the copy-marker click handler; now
is the Date.now timestamp at the click. -/
def commitRecord (now : Nat) (latlng : LatLngU) (f : DraftFields) : MarkerRecord :=
  { id := now
    lat := toFixed6 latlng.latU
    lng := toFixed6 latlng.lngU
    name := if strEmpty f.name then "New Location" else f.name
    img := if strEmpty f.imgUrl then "" else f.imgUrl
    info := if strEmpty f.info then "" else f.info
    relatedItems := collectRelatedItems f.rows }

/-- Observable effects of one commit of a draft marker. -/
structure CommitOutcome where
  record : MarkerRecord
  copiedPopupShown : Bool
  alertShown : Bool
  markerRemoved : Bool
deriving DecidableEq

/-- Embeds the copy-marker click handler together with the settled
clipboard write: the record is built and handed to the sink; the
confirmation popup and the delayed removal of the draft marker are
unconditional in the source, while the alert fires exactly in the
rejection branch of copyToClipboard. -/
def commitFlow (clipboardOk : Bool) (now : Nat) (latlng : LatLngU) (f : DraftFields) : CommitOutcome :=
  { record := commitRecord now latlng f
    copiedPopupShown := true
    alertShown := !clipboardOk
    markerRemoved := true }

/-- Number of characters after the last dot of a string. -/
def fracLenAfterDot (s : String) : Nat :=
  (s.data.reverse.takeWhile (fun c => c != '.')).length

/-- Authoring-mode state: the createMarkerMode flag and a count of draft
markers created so far (an observer of createMarkerWithPopup calls). -/
structure AuthoringState where
  createMarkerMode : Bool
  draftsCreated : Nat
deriving DecidableEq

/-- Embeds the Create Marker button handler: it arms the mode flag. -/
def onCreateMarkerButtonClick (s : AuthoringState) : AuthoringState :=
  { s with createMarkerMode := true }

/-- Embeds the single-click map handler: bail out unless the mode is
armed; otherwise the flag is cleared first and only then is the draft
marker created. -/
def onMapClick (s : AuthoringState) : AuthoringState :=
  if s.createMarkerMode = false then s
  else
    let cleared := { s with createMarkerMode := false }
    { cleared with draftsCreated := cleared.draftsCreated + 1 }

/-- The two user events that touch the authoring mode. -/
inductive UiEvent
  | armCreate
  | mapClick
deriving DecidableEq

def uiStep (s : AuthoringState) : UiEvent → AuthoringState
  | UiEvent.armCreate => onCreateMarkerButtonClick s
  | UiEvent.mapClick => onMapClick s

def runUi : AuthoringState → List UiEvent → AuthoringState
  | s, [] => s
  | s, e :: rest => runUi (uiStep s e) rest

def countArms : List UiEvent → Nat
  | [] => 0
  | UiEvent.armCreate :: rest => countArms rest + 1
  | UiEvent.mapClick :: rest => countArms rest

/-- Drafts created plus one for an armed flag; bounds draft creation. -/
def uiPotential (s : AuthoringState) : Nat :=
  s.draftsCreated + (if s.createMarkerMode then 1 else 0)

/-- Concrete data used by closed evaluations below. -/
def badLoc : Location := { name := "Bad", lat := "abc", lng := "5" }

def goodLoc : Location := { name := "Good", lat := "2", lng := "3" }

def failingDoc : CategoriesDoc := [("Heists", { color := "red", locations := [badLoc, goodLoc] })]

def goodOnlyDoc : CategoriesDoc := [("Heists", { color := "red", locations := [goodLoc] })]

def fooLoc : Location := { name := "foo", lat := "1", lng := "1" }

def fooDoc : CategoriesDoc := [("Cat", { color := "green", locations := [fooLoc] })]

def exampleRows : List RelatedRow := [{ name := "Thermite", desc := "" }, { name := "Keycard", desc := "" }]

def exampleFields : DraftFields := { name := "Meth Lab 1", imgUrl := "", info := "", rows := exampleRows }

def examplePoint : LatLngU := { latU := 12345678, lngU := -9876543 }

def locW : Location := { name := "W", lat := "1", lng := "2" }

def badLocW : Location := { name := "B", lat := "abc", lng := "2" }

def netW : Url → Bool := fun _ => true

def cacheW : ImageCache := [("a", LoadOutcome.failure)]

/-! Theorems. Helper lemmas come first, then one theorem per claim. -/

theorem highlightMarker_init (m : Nat) : highlightMarker initHighlight m = stateFor m := rfl

theorem highlightMarker_stateFor (p m : Nat) : highlightMarker (stateFor p) m = stateFor m := by
  by_cases h : p = m
  · subst h
    simp [highlightMarker, stateFor]
  · simp [highlightMarker, stateFor, h]

theorem foldl_highlight_stateFor (hs : List Nat) : ∀ m : Nat,
    hs.foldl highlightMarker (stateFor m) = stateFor (hs.getLastD m) := by
  induction hs with
  | nil => intro m; rfl
  | cons h t ih =>
    intro m
    simp only [List.foldl_cons, highlightMarker_stateFor, ih h, List.getLastD_cons]

/-- C2: after any selection sequence h1 :: rest starting from the fresh
session state, exactly the last selected handle is current and exactly it
carries the highlighted class (so at most one marker is emphasized); and
one highlightMarker step from a single-highlight state always clears the
previous emphasis, leaving only the newly selected handle emphasized. -/
theorem c2_highlight_invariant (h1 : Nat) (rest : List Nat) (p m : Nat) :
    ((h1 :: rest).foldl highlightMarker initHighlight).current = some (rest.getLastD h1)
    ∧ ((h1 :: rest).foldl highlightMarker initHighlight).emphasized = [rest.getLastD h1]
    ∧ ((h1 :: rest).foldl highlightMarker initHighlight).emphasized.length ≤ 1
    ∧ highlightMarker (stateFor p) m = stateFor m := by
  have key : (h1 :: rest).foldl highlightMarker initHighlight = stateFor (rest.getLastD h1) := by
    simp only [List.foldl_cons, highlightMarker_init, foldl_highlight_stateFor]
  refine ⟨?_, ?_, ?_, highlightMarker_stateFor p m⟩ <;> simp [key, stateFor]

theorem runUi_potential (evs : List UiEvent) : ∀ s : AuthoringState,
    uiPotential (runUi s evs) ≤ uiPotential s + countArms evs := by
  induction evs with
  | nil => intro s; simp [runUi]
  | cons e rest ih =>
    intro s
    have hstep : uiPotential (uiStep s e) ≤ uiPotential s + countArms [e] := by
      cases e <;> cases hm : s.createMarkerMode <;>
        simp [uiStep, onCreateMarkerButtonClick, onMapClick, uiPotential, countArms, hm]
    have htail : uiPotential (runUi (uiStep s e) rest) ≤ uiPotential (uiStep s e) + countArms rest := ih _
    have hcount : countArms (e :: rest) = countArms [e] + countArms rest := by
      cases e <;> simp [countArms] <;> omega
    have : runUi s (e :: rest) = runUi (uiStep s e) rest := rfl
    rw [this, hcount]
    omega

/-- C10: the create-marker mode flag is one-shot. A map click creates a
draft exactly when the flag was armed; afterwards the flag is always
clear, so of two consecutive clicks at most one creates a draft; and over
any event sequence the number of drafts created is bounded by the number
of Create Marker button presses (plus one for an initially armed flag). -/
theorem c10_one_shot (s : AuthoringState) (evs : List UiEvent) :
    (onMapClick s).draftsCreated = s.draftsCreated + (if s.createMarkerMode then 1 else 0)
    ∧ (onMapClick s).createMarkerMode = false
    ∧ (onMapClick (onMapClick s)).draftsCreated ≤ s.draftsCreated + 1
    ∧ (runUi s evs).draftsCreated ≤ s.draftsCreated + countArms evs + (if s.createMarkerMode then 1 else 0) := by
  refine ⟨?_, ?_, ?_, ?_⟩
  · cases hm : s.createMarkerMode <;> simp [onMapClick, hm]
  · cases hm : s.createMarkerMode <;> simp [onMapClick, hm]
  · cases hm : s.createMarkerMode <;> simp [onMapClick, hm]
  · have h := runUi_potential evs s
    have hle : (runUi s evs).draftsCreated ≤ uiPotential (runUi s evs) := by
      unfold uiPotential
      cases (runUi s evs).createMarkerMode <;> simp
    unfold uiPotential at h
    cases hm : s.createMarkerMode <;> rw [hm] at h <;> simp at h ⊢ <;> omega

/-- C4 counterexample: at a concrete failed clipboard write, the commit
flow both surfaces the alert and still removes the draft marker, refuting
the claim that the marker is kept for a retry. -/
theorem c4_counterexample :
    (commitFlow false 1700000000000 examplePoint exampleFields).alertShown = true
    ∧ (commitFlow false 1700000000000 examplePoint exampleFields).markerRemoved = true :=
  ⟨rfl, rfl⟩

/-- C4 amended: on export-sink write failure a user-visible alert is
surfaced, but the committed draft marker is removed from the map after
the fixed delay regardless of the write outcome. -/
theorem c4_amended_export_failure (clipboardOk : Bool) (now : Nat) (latlng : LatLngU) (f : DraftFields) :
    (clipboardOk = false → (commitFlow clipboardOk now latlng f).alertShown = true)
    ∧ (commitFlow clipboardOk now latlng f).markerRemoved = true := by
  constructor
  · intro h
    simp [commitFlow, h]
  · rfl

theorem c4_witness :
    (commitFlow false 99 examplePoint exampleFields).alertShown = true
    ∧ (commitFlow false 99 examplePoint exampleFields).markerRemoved = true :=
  ⟨(c4_amended_export_failure false 99 examplePoint exampleFields).1 rfl,
   (c4_amended_export_failure false 99 examplePoint exampleFields).2⟩

/-- C1: evaluating the loader at a document whose first location carries
the unparseable latitude abc shows the claim broken in the code: the bad
location is indeed not placed, but the marker loop aborts with the
invalid-coordinates error, so the valid sibling Good is not placed
either, even though the same sibling is placed when loaded alone. -/
theorem c1_bad_coordinate_aborts_load :
    (loadData failingDoc { markers := [] }).markers = []
    ∧ (placeDoc [] failingDoc).2 = some MapError.invalidLatLng
    ∧ ((loadData goodOnlyDoc { markers := [] }).markers.map Marker.title) = ["Good"]
    ∧ (placeLocation goodLoc).toOption.isSome = true := by
  refine ⟨by decide, by decide, by decide, by decide⟩

theorem takeWhile_append_sentinel {α : Type} (p : α → Bool) (l1 : List α) (x : α) (l2 : List α)
    (h1 : ∀ a ∈ l1, p a = true) (hx : p x = false) :
    (l1 ++ x :: l2).takeWhile p = l1 := by
  induction l1 with
  | nil => simp [List.takeWhile_cons, hx]
  | cons a t ih =>
    have ha := h1 a (List.mem_cons_self a t)
    simp [List.takeWhile_cons, ha, ih (fun b hb => h1 b (List.mem_cons_of_mem a hb))]

theorem digitChar_ne_dot (n : Nat) : (digitChar n != '.') = true := by
  unfold digitChar
  split <;> decide

theorem fracDigits6_ne_dot (fp : Nat) : ∀ c ∈ fracDigits6 fp, (c != '.') = true := by
  intro c hc
  simp only [fracDigits6, List.mem_cons, List.not_mem_nil, or_false] at hc
  rcases hc with h | h | h | h | h | h <;> subst h <;> exact digitChar_ne_dot _

theorem fracLen_toFixed6 (v : Int) : fracLenAfterDot (toFixed6 v) = 6 := by
  unfold fracLenAfterDot toFixed6
  have hdata : (String.mk ((if v < 0 then ['-'] else [])
      ++ (Nat.repr (v.natAbs / 1000000)).data
      ++ '.' :: fracDigits6 (v.natAbs % 1000000))).data
      = (if v < 0 then ['-'] else [])
      ++ (Nat.repr (v.natAbs / 1000000)).data
      ++ '.' :: fracDigits6 (v.natAbs % 1000000) := rfl
  rw [hdata]
  rw [List.reverse_append, List.reverse_append, List.reverse_cons]
  rw [List.append_assoc, List.singleton_append]
  rw [takeWhile_append_sentinel _ _ '.' _ ?all ?dot]
  · rw [List.length_reverse]
    rfl
  case all =>
    intro a ha
    exact fracDigits6_ne_dot _ a (List.mem_reverse.mp ha)
  case dot => decide

theorem collectRelatedItems_eq (rows : List RelatedRow) :
    collectRelatedItems rows
      = (rows.filter (fun r => !(strEmpty (trimStr r.name)))).map (fun r => trimStr r.name) := by
  have h : ∀ acc : List String,
      rows.foldl
        (fun acc row =>
          let itemName := trimStr row.name
          if strEmpty itemName then acc else acc ++ [itemName])
        acc
      = acc ++ (rows.filter (fun r => !(strEmpty (trimStr r.name)))).map (fun r => trimStr r.name) := by
    induction rows with
    | nil => intro acc; simp
    | cons r t ih =>
      intro acc
      cases hr : strEmpty (trimStr r.name) <;>
        simp [List.foldl_cons, List.filter_cons, hr, ih, List.append_assoc]
  simpa [collectRelatedItems] using h []

/-- C7: the exported record carries the Date.now timestamp as its id
(nonzero for any positive clock, distinct clocks giving distinct ids),
renders lat and lng of the placement point with exactly six fractional
digits, uses the entered name or the New Location placeholder when the
name was left blank, and lists exactly the trimmed entry-row names whose
trimmed value is non-empty, in row order, with descriptions excluded. -/
theorem c7_export_record (now : Nat) (latlng : LatLngU) (f : DraftFields) :
    (commitRecord now latlng f).id = now
    ∧ (0 < now → (commitRecord now latlng f).id ≠ 0)
    ∧ (∀ t2 : Nat, t2 ≠ now → (commitRecord t2 latlng f).id ≠ (commitRecord now latlng f).id)
    ∧ (commitRecord now latlng f).lat = toFixed6 latlng.latU
    ∧ (commitRecord now latlng f).lng = toFixed6 latlng.lngU
    ∧ fracLenAfterDot (commitRecord now latlng f).lat = 6
    ∧ fracLenAfterDot (commitRecord now latlng f).lng = 6
    ∧ (commitRecord now latlng f).name = (if strEmpty f.name then "New Location" else f.name)
    ∧ (commitRecord now latlng f).relatedItems
        = (f.rows.filter (fun r => !(strEmpty (trimStr r.name)))).map (fun r => trimStr r.name) := by
  refine ⟨rfl, ?_, ?_, rfl, rfl, fracLen_toFixed6 _, fracLen_toFixed6 _, rfl, collectRelatedItems_eq f.rows⟩
  · intro h
    simp [commitRecord]
    omega
  · intro t2 ht
    simpa [commitRecord] using ht

theorem c7_witness :
    (commitRecord 1700000000000 examplePoint exampleFields).id ≠ 0
    ∧ (commitRecord 99 examplePoint exampleFields).id ≠ (commitRecord 1700000000000 examplePoint exampleFields).id
    ∧ (commitRecord 1700000000000 examplePoint exampleFields).lat = "12.345678"
    ∧ (commitRecord 1700000000000 examplePoint exampleFields).lng = "-9.876543"
    ∧ (commitRecord 1700000000000 examplePoint exampleFields).name = "Meth Lab 1"
    ∧ (commitRecord 1700000000000 examplePoint exampleFields).relatedItems = ["Thermite", "Keycard"] := by
  refine ⟨(c7_export_record 1700000000000 examplePoint exampleFields).2.1 (by decide),
          (c7_export_record 1700000000000 examplePoint exampleFields).2.2.1 99 (by decide),
          by decide, by decide, by decide, by decide⟩

theorem warmRun_ok (net : Url → Bool) : ∀ (urls : List Url) (c : ImageCache),
    ∃ c2, warmRun net urls c = Except.ok c2 := by
  intro urls
  induction urls with
  | nil => intro c; exact ⟨c, rfl⟩
  | cons u rest ih =>
    intro c
    rcases h : loadImageAwait net c u with ⟨c2, r⟩
    cases r <;> simp [warmRun, h] <;> exact ih c2

/-- C8: warmCache selects at most limit urls, all of them uncached and
drawn from the candidate list, and the warm loop never lets an individual
load failure escape to the caller. -/
theorem c8_warm_cache (net : Url → Bool) (c : ImageCache) (urls : List Url) (limit : Nat) :
    (warmCache net c urls limit).1.length ≤ limit
    ∧ (∀ u ∈ (warmCache net c urls limit).1, cacheHas c u = false ∧ u ∈ urls)
    ∧ ∃ c2, (warmCache net c urls limit).2 = Except.ok c2 := by
  refine ⟨?_, ?_, ?_⟩
  · calc ((urls.take limit).filter (fun u => !(cacheHas c u))).length
        ≤ (urls.take limit).length := List.length_filter_le _ _
      _ ≤ limit := List.length_take_le _ _
  · intro u hu
    have h1 := List.mem_filter.mp hu
    refine ⟨?_, List.mem_of_mem_take h1.1⟩
    have := h1.2
    simpa using this
  · exact warmRun_ok net _ c

theorem c8_witness :
    (warmCache netW [] ["a", "b", "c"] 2).1.length ≤ 2
    ∧ cacheHas [] "a" = false ∧ "a" ∈ ["a", "b", "c"] :=
  ⟨(c8_warm_cache netW [] ["a", "b", "c"] 2).1,
   (c8_warm_cache netW [] ["a", "b", "c"] 2).2.1 "a" (by decide)⟩

theorem initiations_cons (e : Url × LoadOutcome × Bool) (log : List (Url × LoadOutcome × Bool)) (u : Url) :
    initiations (e :: log) u = initiations log u + (if (e.1 == u && e.2.2) then 1 else 0) := by
  simp [initiations, List.countP_cons]

theorem runLoads_spec (net : Url → Bool) (u : Url) : ∀ (urls : List Url) (c : ImageCache),
    (∀ e ∈ (runLoads net c urls).1, e.1 = u → e.2.1 = expectedOutcome net c u)
    ∧ initiations (runLoads net c urls).1 u ≤ (if cacheGet c u = none then 1 else 0) := by
  intro urls
  induction urls with
  | nil =>
    intro c
    constructor
    · intro e he
      simp [runLoads] at he
    · simp only [runLoads, initiations, List.countP_nil]
      split <;> omega
  | cons v rest ih =>
    intro c
    cases hv : cacheGet c v with
    | some o =>
      have hload : loadImage net c v = (o, c, false) := by simp [loadImage, hv]
      have hrun : (runLoads net c (v :: rest)).1 = (v, o, false) :: (runLoads net c rest).1 := by
        simp [runLoads, hload]
      constructor
      · intro e he heu
        rw [hrun] at he
        rcases List.mem_cons.mp he with h | h
        · subst h
          have hvu : v = u := heu
          subst hvu
          simp [expectedOutcome, hv]
        · exact (ih c).1 e h heu
      · rw [hrun, initiations_cons]
        simpa using (ih c).2
    | none =>
      have hload : loadImage net c v = (netOutcome net v, (v, netOutcome net v) :: c, true) := by
        simp [loadImage, hv]
      have hrun : (runLoads net c (v :: rest)).1
          = (v, netOutcome net v, true) :: (runLoads net ((v, netOutcome net v) :: c) rest).1 := by
        simp [runLoads, hload]
      by_cases he : v = u
      · subst he
        have hc2 : cacheGet ((v, netOutcome net v) :: c) v = some (netOutcome net v) := by
          simp [cacheGet]
        have hexp2 : expectedOutcome net ((v, netOutcome net v) :: c) v = netOutcome net v := by
          simp [expectedOutcome, hc2]
        constructor
        · intro e hee heu
          rw [hrun] at hee
          rcases List.mem_cons.mp hee with h | h
          · subst h
            simp [expectedOutcome, hv]
          · have hres := (ih ((v, netOutcome net v) :: c)).1 e h heu
            rw [hexp2] at hres
            rw [hres]
            simp [expectedOutcome, hv]
        · rw [hrun, initiations_cons]
          have hbound := (ih ((v, netOutcome net v) :: c)).2
          rw [hc2] at hbound
          simp at hbound
          simp [hv]
          omega
      · have hc2 : cacheGet ((v, netOutcome net v) :: c) u = cacheGet c u := by
          simp [cacheGet, he]
        have hexp2 : expectedOutcome net ((v, netOutcome net v) :: c) u = expectedOutcome net c u := by
          simp [expectedOutcome, hc2]
        constructor
        · intro e hee heu
          rw [hrun] at hee
          rcases List.mem_cons.mp hee with h | h
          · subst h
            exact absurd heu he
          · have hres := (ih ((v, netOutcome net v) :: c)).1 e h heu
            rwa [hexp2] at hres
        · rw [hrun, initiations_cons]
          have hbound := (ih ((v, netOutcome net v) :: c)).2
          rw [hc2] at hbound
          have hne : (v == u) = false := by
            simp [he]
          simpa [hne] using hbound

/-- C6: over any call sequence, loadImage initiates the underlying load
of a url at most once (never, when the url is already memoized, which
also covers a memoized failure never being retried), and every call for
that url returns the one memoized outcome. -/
theorem c6_cache_idempotent (net : Url → Bool) (c : ImageCache) (urls : List Url) (u : Url) :
    initiations (runLoads net c urls).1 u ≤ 1
    ∧ (cacheGet c u ≠ none → initiations (runLoads net c urls).1 u = 0)
    ∧ (∀ e ∈ (runLoads net c urls).1, e.1 = u → e.2.1 = expectedOutcome net c u) := by
  have h := runLoads_spec net u urls c
  refine ⟨?_, ?_, h.1⟩
  · have hb := h.2
    split at hb <;> omega
  · intro hne
    have hb := h.2
    rcases hcu : cacheGet c u with _ | o
    · exact absurd hcu hne
    · rw [hcu] at hb
      simp at hb
      omega

theorem c6_witness :
    initiations (runLoads netW cacheW ["a", "b", "a"]).1 "a" = 0
    ∧ LoadOutcome.failure = expectedOutcome netW cacheW "a" :=
  ⟨(c6_cache_idempotent netW cacheW ["a", "b", "a"] "a").2.1 (by decide),
   (c6_cache_idempotent netW cacheW ["a", "b", "a"] "a").2.2 ("a", LoadOutcome.failure, false) (by decide) rfl⟩

theorem placeList_valid (locs : List Location) : ∀ g : List Marker,
    (∀ loc ∈ locs, (parseFloatM loc.lat).isSome = true ∧ (parseFloatM loc.lng).isSome = true) →
    placeList g locs = (g ++ locs.filterMap (fun l => (placeLocation l).toOption), none) := by
  induction locs with
  | nil =>
    intro g h
    simp [placeList]
  | cons loc rest ih =>
    intro g h
    obtain ⟨hla, hln⟩ := h loc (List.mem_cons_self loc rest)
    obtain ⟨la, hla2⟩ := Option.isSome_iff_exists.mp hla
    obtain ⟨ln, hln2⟩ := Option.isSome_iff_exists.mp hln
    have hploc : placeLocation loc = Except.ok { title := loc.name, lat := la, lng := ln } := by
      simp [placeLocation, placeMarker, hla2, hln2]
    have hstep : placeList g (loc :: rest)
        = placeList (g ++ [{ title := loc.name, lat := la, lng := ln }]) rest := by
      simp [placeList, hploc]
    rw [hstep, ih _ (fun l hl => h l (List.mem_cons_of_mem loc hl))]
    simp [List.filterMap_cons, hploc, Except.toOption, List.append_assoc]

theorem placeDoc_valid (doc : CategoriesDoc) : ∀ g : List Marker,
    allCoordsValid doc → placeDoc g doc = (g ++ markersOf doc, none) := by
  induction doc with
  | nil =>
    intro g h
    simp [placeDoc, markersOf]
  | cons c rest ih =>
    intro g h
    have hc : ∀ loc ∈ c.2.locations,
        (parseFloatM loc.lat).isSome = true ∧ (parseFloatM loc.lng).isSome = true :=
      fun loc hl => h c (List.mem_cons_self c rest) loc hl
    have hrest : allCoordsValid rest := fun c2 h2 => h c2 (List.mem_cons_of_mem c h2)
    have h1 := placeList_valid c.2.locations g hc
    simp [placeDoc, h1, ih _ hrest, markersOf, List.append_assoc]

/-- C5: running the loader twice in succession leaves exactly the marker
set of the second document on the map surface, independent of the first
document and of any markers present beforehand (the group is cleared
before placing); for a second document whose coordinates all parse, that
set is exactly the markers the document implies. -/
theorem c5_reload_coherence (s : MapState) (d1 d2 : CategoriesDoc) :
    (loadData d2 (loadData d1 s)).markers = (loadData d2 { markers := [] }).markers
    ∧ (allCoordsValid d2 → (loadData d2 (loadData d1 s)).markers = markersOf d2) := by
  constructor
  · rfl
  · intro hv
    show (placeDoc [] d2).1 = markersOf d2
    rw [placeDoc_valid d2 [] hv]
    simp

theorem c5_witness :
    (loadData goodOnlyDoc (loadData failingDoc { markers := [] })).markers = markersOf goodOnlyDoc :=
  (c5_reload_coherence { markers := [] } failingDoc goodOnlyDoc).2 (by unfold allCoordsValid; decide)

/-- C9: focusLocation is a no-op for an absent location or an unparseable
coordinate; otherwise the camera is centered on the parsed point with the
requested zoom (default 2.4) clamped into the configured zoom bounds. -/
theorem c9_focus_clamp (cfg : MapConfig) (opts : FocusOptions) :
    focusLocation cfg none opts = none
    ∧ (∀ loc : Location, parseFloatM loc.lat = none ∨ parseFloatM loc.lng = none →
        focusLocation cfg (some loc) opts = none)
    ∧ (∀ (loc : Location) (la ln : Rat),
        parseFloatM loc.lat = some la → parseFloatM loc.lng = some ln →
        focusLocation cfg (some loc) opts
          = some { center := (la, ln),
                   zoom := min (cfg.maxZoomOpt.getD 3) (max (opts.zoom.getD (24 / 10)) (cfg.minZoomOpt.getD (-10))) }) := by
  refine ⟨rfl, ?_, ?_⟩
  · intro loc h
    rcases h with h | h
    · simp [focusLocation, h]
    · rcases hla : parseFloatM loc.lat with _ | la <;> simp [focusLocation, hla, h]
  · intro loc la ln hla hln
    simp [focusLocation, hla, hln]

theorem c9_witness :
    (focusLocation mapConfigDefault (some locW) { zoom := some 999 }).map (fun a => a.zoom) = some 10
    ∧ focusLocation mapConfigDefault (some badLocW) { zoom := none } = none := by
  constructor
  · obtain ⟨la, hla⟩ : ∃ x, parseFloatM locW.lat = some x := ⟨_, rfl⟩
    obtain ⟨ln, hln⟩ : ∃ x, parseFloatM locW.lng = some x := ⟨_, rfl⟩
    rw [(c9_focus_clamp mapConfigDefault { zoom := some 999 }).2.2 locW la ln hla hln]
    simp only [mapConfigDefault, Option.getD_some, Option.map_some]
    rw [max_eq_left (by norm_num), min_eq_left (by norm_num)]
    rfl
  · exact (c9_focus_clamp mapConfigDefault { zoom := none }).2.1 badLocW (Or.inl (by decide))

theorem strEmpty_lower (s : String) : strEmpty (lower s) = strEmpty s := by
  rcases s with ⟨d⟩
  cases d <;> rfl

theorem filter_not_isEmpty_eq_any {α : Type} (p : α → Bool) (l : List α) :
    (!((l.filter p).isEmpty)) = l.any p := by
  induction l with
  | nil => rfl
  | cons a t ih =>
    cases h : p a <;> simp [List.filter_cons, h, List.any_cons, ih]

theorem locationMatches_eq_spec (raw : String) (hq : strEmpty (trimStr raw) = false) (loc : Location) :
    locationMatchesQ (lower (trimStr raw)) loc = specMatchPred (trimStr raw) loc := by
  unfold locationMatchesQ specMatchPred matchingRelated
  rw [filter_not_isEmpty_eq_any]
  congr 1
  cases hn : strEmpty loc.name
  · simp
  · have hdata : loc.name.data = [] := by
      simpa [strEmpty, List.isEmpty_iff] using hn
    have hfalse : containsSub (lower loc.name) (lower (trimStr raw)) = false := by
      unfold containsSub lower
      rw [hdata]
      show containsSubL ((trimStr raw).data.map Char.toLower) [] = false
      rcases htd : (trimStr raw).data with _ | ⟨c, cs⟩
      · exfalso
        have : strEmpty (trimStr raw) = true := by
          simp [strEmpty, htd]
        rw [this] at hq
        exact Bool.noConfusion hq
      · rfl
    simp [hn, hfalse]

theorem code_eq_specMatchOf (raw : String) (hq : strEmpty (trimStr raw) = false)
    (c1 : String) (loc : Location) :
    codeMatchOf (lower (trimStr raw)) c1 loc = specMatchOf raw (c1, loc) := by
  unfold codeMatchOf specMatchOf
  rw [locationMatches_eq_spec raw hq loc]
  rfl

theorem perCat_code_eq_spec (raw : String) (hq : strEmpty (trimStr raw) = false)
    (c1 : String) (locs : List Location) :
    locs.filterMap (codeMatchOf (lower (trimStr raw)) c1)
      = (locs.map (fun l => (c1, l))).filterMap (specMatchOf raw) := by
  induction locs with
  | nil => rfl
  | cons loc rest ih =>
    simp only [List.map_cons, List.filterMap_cons]
    rw [code_eq_specMatchOf raw hq c1 loc, ih]

theorem codeMatches_eq_spec (raw : String) (hq : strEmpty (trimStr raw) = false)
    (doc : CategoriesDoc) :
    codeMatchesList (lower (trimStr raw)) doc = matchesSpecTrimmed raw doc := by
  induction doc with
  | nil => rfl
  | cons c rest ih =>
    show c.2.locations.filterMap (codeMatchOf (lower (trimStr raw)) c.1)
        ++ codeMatchesList (lower (trimStr raw)) rest
      = (entriesSpec (c :: rest)).filterMap (specMatchOf raw)
    rw [entriesSpec, List.filterMap_append, perCat_code_eq_spec raw hq c.1 c.2.locations, ih]
    rfl

theorem searchFold_inner (query catName : String) (locs : List Location) : ∀ acc : List SearchMatch,
    locs.foldl (searchFoldLoc query catName) acc = acc ++ locs.filterMap (codeMatchOf query catName) := by
  induction locs with
  | nil => intro acc; simp
  | cons loc rest ih =>
    intro acc
    cases h : locationMatchesQ query loc <;>
      simp [List.foldl_cons, searchFoldLoc, codeMatchOf, h, List.filterMap_cons, ih, List.append_assoc]

theorem searchMatches_eq (query : String) (doc : CategoriesDoc) :
    searchMatches query doc = codeMatchesList query doc := by
  have h : ∀ acc : List SearchMatch,
      doc.foldl (fun acc c => c.2.locations.foldl (searchFoldLoc query c.1) acc) acc
        = acc ++ codeMatchesList query doc := by
    induction doc with
    | nil => intro acc; simp [codeMatchesList]
    | cons c rest ih =>
      intro acc
      simp only [List.foldl_cons]
      rw [searchFold_inner, ih]
      show acc ++ c.2.locations.filterMap (codeMatchOf query c.1) ++ codeMatchesList query rest
        = acc ++ codeMatchesList query (c :: rest)
      rw [List.append_assoc]
      rfl
  simpa [searchMatches] using h []

theorem allLocations_eq (doc : CategoriesDoc) : allLocations doc = allLocationsSpec doc := by
  have h : ∀ acc : List Location,
      doc.foldl (fun acc c => acc ++ c.2.locations) acc = acc ++ allLocationsSpec doc := by
    induction doc with
    | nil => intro acc; simp [allLocationsSpec]
    | cons c rest ih =>
      intro acc
      simp [List.foldl_cons, ih, allLocationsSpec, List.append_assoc]
  simpa [allLocations] using h []

theorem perCat_map_location (raw : String) (c1 : String) (locs : List Location) :
    (((locs.map (fun l => (c1, l))).filterMap (specMatchOf raw)).map (fun m => m.location))
      = locs.filter (specMatchPred (trimStr raw)) := by
  induction locs with
  | nil => rfl
  | cons loc rest ih =>
    have ih2 : ((rest.filterMap (specMatchOf raw ∘ fun l => (c1, l))).map (fun m => m.location))
        = rest.filter (specMatchPred (trimStr raw)) := by
      rw [← List.filterMap_map]
      exact ih
    simp only [List.map_cons, List.filterMap_cons]
    cases h : specMatchPred (trimStr raw) loc <;>
      simp [specMatchOf, h, List.filter_cons, ih2]

theorem matchesSpec_map_location (raw : String) (doc : CategoriesDoc) :
    (matchesSpecTrimmed raw doc).map (fun m => m.location)
      = (allLocationsSpec doc).filter (specMatchPred (trimStr raw)) := by
  induction doc with
  | nil => rfl
  | cons c rest ih =>
    show ((entriesSpec (c :: rest)).filterMap (specMatchOf raw)).map (fun m => m.location)
      = (allLocationsSpec (c :: rest)).filter (specMatchPred (trimStr raw))
    rw [entriesSpec, allLocationsSpec, List.filterMap_append, List.map_append, List.filter_append]
    have ih2 : ((entriesSpec rest).filterMap (specMatchOf raw)).map (fun m => m.location)
        = (allLocationsSpec rest).filter (specMatchPred (trimStr raw)) := ih
    rw [perCat_map_location raw c.1 c.2.locations, ih2]

/-- C3 counterexample: at the query built of a space and the letters f o,
the handler returns the location named foo (the code matches the trimmed
query), while the claim as literally stated, requiring the name to
contain the raw query, returns nothing; so the literal claim is false. -/
theorem c3_counterexample :
    visibleLocations " fo" fooDoc ≠ searchClaimLiteral " fo" fooDoc := by
  decide

/-- C3 amended: the search shows every location when the query is empty
or whitespace-only; otherwise it returns exactly the locations whose name
or some related item contains the trimmed query case-insensitively, in
document order, reporting alongside each match the related items that
matched. -/
theorem c3_search_amended (raw : String) (doc : CategoriesDoc) :
    searchHandler raw doc = (if whitespaceOnly raw then none else some (matchesSpecTrimmed raw doc))
    ∧ visibleLocations raw doc = searchSpecTrimmed raw doc := by
  have hcond : strEmpty (lower (trimStr raw)) = whitespaceOnly raw := strEmpty_lower (trimStr raw)
  cases hw : whitespaceOnly raw with
  | true =>
    have hc : strEmpty (lower (trimStr raw)) = true := by rw [hcond, hw]
    have hh : searchHandler raw doc = none := by
      simp [searchHandler, hc]
    refine ⟨by simp [hh, hw], ?_⟩
    simp [visibleLocations, hh, searchSpecTrimmed, hw, allLocations_eq]
  | false =>
    have hc : strEmpty (lower (trimStr raw)) = false := by rw [hcond, hw]
    have hq : strEmpty (trimStr raw) = false := hw
    have hh : searchHandler raw doc = some (matchesSpecTrimmed raw doc) := by
      simp only [searchHandler, hc, Bool.false_eq_true, if_false]
      rw [searchMatches_eq, codeMatches_eq_spec raw hq]
    refine ⟨by simp [hh, hw], ?_⟩
    simp [visibleLocations, hh, searchSpecTrimmed, hw, matchesSpec_map_location]

end MapViewer
